import Mathlib

/-!
# Verification of the ModbusController register access engine

A shallow embedding of the core of the `modbus_controller` Python package:

* `data_converter.py` — the `ModbusDataConverter` static methods, embedded as
  executable functions over `Nat` words and a `PyVal` value type.  Python code
  paths that raise (`DataConversionError`, `struct.error`, `OverflowError`,
  `TypeError`) are embedded as `none` / explicit error values.
* `config_loader.py` — the pydantic validators of `ConnectionConfig`,
  `RegisterConfig` and `ModbusConfig`, embedded over an already-typed
  document model (pydantic's JSON-level type coercion is out of scope).
* `controller.py` — the grouping algorithm `_group_consecutive_registers`,
  the per-register slice/decode/scale/cache loop of `_read_register_group`,
  the change-detection step of `_monitoring_loop`, `write_register` and
  `get_last_value`, embedded with explicit state passing; the transport is a
  parameter (the words a read returns, or the error flag a write returns).

Python machine-level conventions used throughout the embedding:

* Modbus 16-bit words are `Nat`; Python's unbounded `int` is `Int`.
* Python `float` is idealised as an exact rational (`Rat`).  IEEE-754
  binary32 packing (`struct.pack('>f', ...)`) is modelled by an executable
  round-to-nearest-even encoder into the rationals; infinities and NaNs are
  outside the rational model (`none`).
* Python values flowing through the controller are `PyVal` (`int`, `float`
  or `str`), so that `isinstance` checks and Python's cross-type numeric
  equality can be embedded faithfully.
-/

set_option linter.unusedVariables false

namespace Modbus

/-- The register data types accepted by the configuration
(`config_loader.py`, `RegisterConfig.validate_type`). -/
inductive DataType
  | uint16
  | int16
  | uint32
  | int32
  | float32
  | string
  deriving DecidableEq

/-- Word order for 32-bit types: `big` = high word first. -/
inductive ByteOrder
  | big
  | little
  deriving DecidableEq

/-- A Python value as it flows through the controller: an `int`, a `float`
(idealised as an exact rational) or a `str` (a list of Unicode code points). -/
inductive PyVal
  | int (n : Int)
  | float (q : Rat)
  | str (chars : List Nat)
  deriving DecidableEq

/-- Python `==` between controller values: numbers compare by value across
`int`/`float`, strings by content, mixed string/number is `False`. -/
def pyEq : PyVal → PyVal → Bool
  | .int a, .int b => a == b
  | .int a, .float b => (a : Rat) == b
  | .float a, .int b => a == (b : Rat)
  | .float a, .float b => a == b
  | .str a, .str b => a == b
  | _, _ => false

/-! ## `data_converter.py` — `ModbusDataConverter` -/

/-- `ModbusDataConverter.get_register_count`: 1 word for 16-bit types, 2 for
32-bit types, `length` for strings; raises (`none`) when a string register
has no length. -/
def get_register_count (data_type : DataType) (length : Option Nat) : Option Nat :=
  match data_type with
  | .uint16 | .int16 => some 1
  | .uint32 | .int32 | .float32 => some 2
  | .string => length

/-- `ModbusDataConverter.registers_to_uint16`: exactly one register, identity. -/
def registers_to_uint16 (registers : List Nat) : Option Int :=
  match registers with
  | [r] => some (r : Int)
  | _ => none

/-- `ModbusDataConverter.registers_to_int16`: exactly one register, values
`≥ 0x8000` mapped down by `0x10000`. -/
def registers_to_int16 (registers : List Nat) : Option Int :=
  match registers with
  | [r] => some (if (0x8000 : Int) ≤ (r : Int) then (r : Int) - 0x10000 else (r : Int))
  | _ => none

/-- `ModbusDataConverter.registers_to_uint32`: two registers combined with
the high word first for `big`, low word first otherwise. -/
def registers_to_uint32 (registers : List Nat) (byte_order : ByteOrder) : Option Int :=
  match registers with
  | [r0, r1] =>
    match byte_order with
    | .big => some (((r0 <<< 16) ||| r1 : Nat) : Int)
    | .little => some (((r1 <<< 16) ||| r0 : Nat) : Int)
  | _ => none

/-- `ModbusDataConverter.registers_to_int32`: `registers_to_uint32`, then
values `≥ 0x80000000` mapped down by `0x100000000`. -/
def registers_to_int32 (registers : List Nat) (byte_order : ByteOrder) : Option Int :=
  match registers_to_uint32 registers byte_order with
  | none => none
  | some value => some (if (0x80000000 : Int) ≤ value then value - 0x100000000 else value)

/-- Value of an IEEE-754 binary32 bit pattern as a rational; `none` for the
exponent-255 patterns (infinities and NaNs), which have no rational value. -/
def float32_of_bits (bits : Nat) : Option Rat :=
  let sign := bits >>> 31
  let exponent := (bits >>> 23) &&& 0xFF
  let mantissa := bits &&& 0x7FFFFF
  if exponent = 255 then none
  else
    let mag : Rat :=
      if exponent = 0 then (mantissa : Rat) * (2 : Rat) ^ (-149 : Int)
      else ((2 ^ 23 + mantissa : Nat) : Rat) * (2 : Rat) ^ ((exponent : Int) - 150)
    some (if sign = 1 then -mag else mag)

/-- `ModbusDataConverter.registers_to_float32`: two registers packed as two
big-endian 16-bit halves (`struct.pack('>HH', ...)`, which raises for words
above `0xFFFF`) and reinterpreted as IEEE-754 binary32; `big` puts the high
half first. -/
def registers_to_float32 (registers : List Nat) (byte_order : ByteOrder) : Option Rat :=
  match registers with
  | [r0, r1] =>
    if 0xFFFF < r0 ∨ 0xFFFF < r1 then none
    else
      match byte_order with
      | .big => float32_of_bits ((r0 <<< 16) ||| r1)
      | .little => float32_of_bits ((r1 <<< 16) ||| r0)
  | _ => none

/-- Trailing `'\x00'` and `' '` characters removed (`str.rstrip('\x00 ')`). -/
def rstripNulSpace (bytes : List Nat) : List Nat :=
  (bytes.reverse.dropWhile (fun b => b == 0 || b == 32)).reverse

/-- `ModbusDataConverter.registers_to_string`: at least one register; each
register contributes its high byte then its low byte; the byte string is
decoded as ASCII with `errors='ignore'` (bytes `≥ 128` dropped) and trailing
NUL and space characters are stripped. -/
def registers_to_string (registers : List Nat) : Option (List Nat) :=
  match registers with
  | [] => none
  | _ =>
    let bytes := registers.foldl (fun acc reg => acc ++ [(reg >>> 8) &&& 0xFF, reg &&& 0xFF]) []
    some (rstripNulSpace (bytes.filter (fun b => decide (b < 128))))

/-- Round a rational to the nearest integer, ties to even. -/
def ratRoundHalfEven (q : Rat) : Int :=
  let f : Int := ⌊q⌋
  let r : Rat := q - (f : Rat)
  if r < 1 / 2 then f
  else if 1 / 2 < r then f + 1
  else if f % 2 = 0 then f else f + 1

/-- `⌊log₂ a⌋` for a positive rational, from the integer logs of numerator
and denominator (the initial estimate is off by at most one, downwards). -/
def ilog2Rat (a : Rat) : Int :=
  let e0 : Int := (Nat.log 2 a.num.natAbs : Int) - (Nat.log 2 a.den : Int)
  if a < (2 : Rat) ^ e0 then e0 - 1 else e0

/-- IEEE-754 binary32 bit pattern of a rational, rounding to nearest with
ties to even (the semantics of `struct.pack('>f', ...)` on our idealised
floats); `none` when the rounded magnitude overflows binary32, where
`struct.pack` raises `OverflowError`. -/
def float32_bits_of_rat (q : Rat) : Option Nat :=
  if q = 0 then some 0
  else
    let s : Nat := if q < 0 then 1 else 0
    let a : Rat := |q|
    let e : Int := ilog2Rat a
    if e < -126 then
      let m : Int := ratRoundHalfEven (a * (2 : Rat) ^ (149 : Int))
      some ((s <<< 31) ||| m.toNat)
    else
      let m : Int := ratRoundHalfEven (a * (2 : Rat) ^ (23 - e))
      let em : Int × Int := if m = 2 ^ 24 then (e + 1, (2 : Int) ^ 23) else (e, m)
      if 127 < em.1 then none
      else some ((s <<< 31) ||| (((em.1 + 127).toNat <<< 23) ||| (em.2 - 2 ^ 23).toNat))

/-- The two 16-bit words of the binary32 encoding of a rational, high half
first for `big` (`struct.pack('>f', ...)` then `struct.unpack('>H', ...)`
on each half). -/
def float32_words (q : Rat) (byte_order : ByteOrder) : Option (List Nat) :=
  (float32_bits_of_rat q).map (fun bits =>
    match byte_order with
    | .big => [bits >>> 16, bits &&& 0xFFFF]
    | .little => [bits &&& 0xFFFF, bits >>> 16])

/-- The packing loop of the string branch of `value_to_registers`: two bytes
per word, high byte first; a trailing unpaired byte is completed with a
space byte (`0x20`). -/
def packPairs : List Nat → List Nat
  | b0 :: b1 :: rest => ((b0 <<< 8) ||| b1) :: packPairs rest
  | [b0] => [(b0 <<< 8) ||| 0x20]
  | [] => []

/-- The string branch of `value_to_registers`: encode as ASCII dropping
non-ASCII code points (`errors='ignore'`), right-pad with spaces or truncate
to `2 * length` bytes when a length is given, pad a final odd byte with a
space, then pack two bytes per word. -/
def string_encode (chars : List Nat) (length : Option Nat) : List Nat :=
  let bytes := chars.filter (fun b => decide (b < 128))
  let bytes :=
    match length with
    | some l =>
      let target := l * 2
      if bytes.length < target then bytes ++ List.replicate (target - bytes.length) 0x20
      else if target < bytes.length then bytes.take target
      else bytes
    | none => bytes
  let bytes := if bytes.length % 2 ≠ 0 then bytes ++ [0x20] else bytes
  packPairs bytes

/-- `ModbusDataConverter.value_to_registers`: encode a Python value into
Modbus words according to the data type.  `none` embeds the
`DataConversionError` raised on an `isinstance` failure or a range
violation (and the wrapped `OverflowError` of the float32 pack). -/
def value_to_registers (value : PyVal) (data_type : DataType) (byte_order : ByteOrder)
    (length : Option Nat) : Option (List Nat) :=
  match data_type with
  | .uint16 =>
    match value with
    | .int n => if n < 0 ∨ 0xFFFF < n then none else some [n.toNat]
    | _ => none
  | .int16 =>
    match value with
    | .int n =>
      if n < -32768 ∨ 32767 < n then none
      else some [(if n < 0 then n + 0x10000 else n).toNat]
    | _ => none
  | .uint32 =>
    match value with
    | .int n =>
      if n < 0 ∨ 0xFFFFFFFF < n then none
      else
        let v := n.toNat
        match byte_order with
        | .big => some [(v >>> 16) &&& 0xFFFF, v &&& 0xFFFF]
        | .little => some [v &&& 0xFFFF, (v >>> 16) &&& 0xFFFF]
    | _ => none
  | .int32 =>
    match value with
    | .int n =>
      if n < -2147483648 ∨ 2147483647 < n then none
      else
        let v := (if n < 0 then n + 0x100000000 else n).toNat
        match byte_order with
        | .big => some [(v >>> 16) &&& 0xFFFF, v &&& 0xFFFF]
        | .little => some [v &&& 0xFFFF, (v >>> 16) &&& 0xFFFF]
    | _ => none
  | .float32 =>
    match value with
    | .int n => float32_words (n : Rat) byte_order
    | .float x => float32_words x byte_order
    | .str _ => none
  | .string =>
    match value with
    | .str chars => some (string_encode chars length)
    | _ => none

/-- `ModbusDataConverter.convert_from_registers`: decode Modbus words into a
Python value according to the data type. -/
def convert_from_registers (registers : List Nat) (data_type : DataType)
    (byte_order : ByteOrder) : Option PyVal :=
  match data_type with
  | .uint16 => (registers_to_uint16 registers).map .int
  | .int16 => (registers_to_int16 registers).map .int
  | .uint32 => (registers_to_uint32 registers byte_order).map .int
  | .int32 => (registers_to_int32 registers byte_order).map .int
  | .float32 => (registers_to_float32 registers byte_order).map .float
  | .string => (registers_to_string registers).map .str

/-- `ModbusDataConverter.registers_to_value`: alias of
`convert_from_registers`; the `length` argument is ignored. -/
def registers_to_value (registers : List Nat) (data_type : DataType)
    (length : Option Nat) (byte_order : ByteOrder) : Option PyVal :=
  convert_from_registers registers data_type byte_order

/-- The default of the `byte_order` keyword parameter of
`registers_to_value` and `value_to_registers`, used at every controller call
site because the controller never passes that argument. -/
def default_byte_order : ByteOrder := .big

/-! ## `config_loader.py` — document validation

The document model is typed (pydantic's JSON-level coercion of field values
is out of scope): each field already has the declared Python type, with
`Option` for `Optional` fields.  Only the fields that some validator reads
are kept; the remaining fields (`port`, `timeout`, `baudrate`, `unit`,
`poll_interval`, `description`, `writable`, `scale_factor`, `offset`, the
limits) have no validators and cannot affect acceptance. -/

/-- The validated fields of a `ConnectionConfig` document. -/
structure ConnectionDoc where
  type : String
  host : Option String
  port_name : Option String
  deriving DecidableEq

/-- The validated fields of a `RegisterConfig` document.  `length` is
`Optional[int]` in the source, so zero and negative lengths are
representable. -/
structure RegisterDoc where
  name : String
  address : Int
  type : String
  function_code : Int
  byte_order : String
  length : Option Int
  deriving DecidableEq

/-- A configuration document: a connection and a register list. -/
structure ConfigDoc where
  connection : ConnectionDoc
  registers : List RegisterDoc
  deriving DecidableEq

/-- Python truthiness of an optional string (`not self.host` fails for
`None` and for the empty string). -/
def truthyStr : Option String → Bool
  | none => false
  | some s => s ≠ ""

/-- Python truthiness of an optional int (`not self.length` fails for
`None` and for `0`). -/
def truthyInt : Option Int → Bool
  | none => false
  | some n => n ≠ 0

/-- `ConnectionConfig.validate_type` and `validate_connection_params`:
the type is `tcp` or `rtu`; `tcp` requires a (truthy) host; `rtu` requires
a (truthy) serial port name. -/
def validate_connection (c : ConnectionDoc) : Bool :=
  (c.type == "tcp" || c.type == "rtu") &&
  (c.type == "tcp" → truthyStr c.host) &&
  (c.type == "rtu" → truthyStr c.port_name)

/-- The register types accepted by `RegisterConfig.validate_type`. -/
def valid_types : List String := ["uint16", "int16", "uint32", "int32", "float32", "string"]

/-- The function codes accepted by `RegisterConfig.validate_function_code`. -/
def valid_codes : List Int := [1, 2, 3, 4, 5, 6, 15, 16]

/-- The `RegisterConfig` validators: `validate_type`,
`validate_function_code`, `validate_byte_order` and
`validate_string_length`. -/
def validate_register (r : RegisterDoc) : Bool :=
  (r.type ∈ valid_types : Bool) &&
  (r.function_code ∈ valid_codes : Bool) &&
  (r.byte_order == "big" || r.byte_order == "little") &&
  (r.type == "string" → truthyInt r.length)

/-- `ModbusConfig.validate_unique_names`: the check
`len(names) != len(set(names))`, with `set` cardinality as `dedup` length. -/
def unique_names (registers : List RegisterDoc) : Bool :=
  (registers.map (fun r => r.name)).dedup.length == (registers.map (fun r => r.name)).length

/-- The error classes of `exceptions.py` that the embedded operations can
produce, plus `typeError` for an uncaught Python `TypeError`. -/
inductive PyError
  | configurationError
  | readError
  | writeError
  | dataConversionError
  | typeError
  deriving DecidableEq

/-- `ConfigLoader.load_from_dict`: run all pydantic validators; any
validation failure is wrapped into a `ConfigurationError`, success returns
the validated configuration. -/
def load_from_dict (d : ConfigDoc) : Except PyError ConfigDoc :=
  if validate_connection d.connection
      && d.registers.all validate_register
      && unique_names d.registers then
    .ok d
  else
    .error .configurationError

/-! ## `controller.py` — the register catalogue and the grouping algorithm -/

/-- A validated `RegisterConfig` as the controller consumes it (the `unit`
and `description` labels play no role in any computation and are omitted). -/
structure RegisterConfig where
  name : String
  address : Int
  type : DataType
  function_code : Int
  poll_interval : Option Rat
  length : Option Nat
  byte_order : ByteOrder
  writable : Bool
  scale_factor : Option Rat
  offset : Option Rat
  deriving DecidableEq

/-- The on-wire word count of a register, with the `DataConversionError` of
a length-less string register defaulted to `0` (every theorem that relies on
word counts only does so where `get_register_count` succeeds, where `wc`
agrees with it). -/
def wc (r : RegisterConfig) : Nat :=
  (get_register_count r.type r.length).getD 0

/-- `sorted(registers, key=lambda r: r.address)`: a stable sort by address,
embedded as insertion sort (any sorted permutation yields the same grouping
invariants). -/
def sortByAddress (registers : List RegisterConfig) : List RegisterConfig :=
  registers.insertionSort (fun a b => a.address ≤ b.address)

/-- The loop of `_group_consecutive_registers`.  The running group is kept
in reverse order, so `current_group[-1]` is the head and `current_group[0]`
is `getLastD`; finished groups accumulate in order.  `none` embeds a
`DataConversionError` escaping from `get_register_count`. -/
def groupGo (max_regs : Int) :
    List RegisterConfig → List RegisterConfig → List (List RegisterConfig) →
    Option (List (List RegisterConfig))
  | [], current, groups => some (groups ++ [current.reverse])
  | reg :: rest, current, groups =>
    match current with
    | [] => none
    | last_reg :: _ =>
      match get_register_count last_reg.type last_reg.length,
            get_register_count reg.type reg.length with
      | some last_count, some reg_count =>
        let last_end : Int := last_reg.address + (last_count : Int)
        let total_size : Int :=
          reg.address - (current.getLastD last_reg).address + (reg_count : Int)
        if reg.address = last_end ∧ total_size ≤ max_regs then
          groupGo max_regs rest (reg :: current) groups
        else
          groupGo max_regs rest [reg] (groups ++ [current.reverse])
      | _, _ => none

/-- `ModbusController._group_consecutive_registers`: sort by address, then a
single left-to-right pass merging a register into the running group exactly
when its address equals the group's current end address and the grown span
stays within `max_registers_per_read`. -/
def group_consecutive_registers (max_regs : Int) (registers : List RegisterConfig) :
    Option (List (List RegisterConfig)) :=
  match sortByAddress registers with
  | [] => some []
  | r0 :: rest => groupGo max_regs rest [r0] []

/-- The word span of a group: last register's address plus its word count,
minus the first register's address. -/
def groupSpan (g : List RegisterConfig) : Int :=
  match g.head?, g.getLast? with
  | some f, some l => l.address + (wc l : Int) - f.address
  | _, _ => 0

/-- The span of a reversed running group (head = last appended register). -/
def spanRev : List RegisterConfig → Int
  | [] => 0
  | h :: t => h.address + (wc h : Int) - (((h :: t).getLast? ).getD h).address

/-- Strict consecutiveness of two registers: the second starts exactly where
the first ends. -/
def RegStep (a b : RegisterConfig) : Prop :=
  b.address = a.address + (wc a : Int)

instance : DecidableRel RegStep := fun a b => by unfold RegStep; infer_instance

end Modbus


namespace Modbus

/-! ## `controller.py` — engine state and operations

The transport collaborator is mocked by parameters: the word list a group
read returns, and the error flag each issued write receives.  The cache
`self._last_values` is an insertion-ordered association list. -/

/-- Python dict assignment `d[k] = v` on an insertion-ordered association
list: replace in place when the key exists, append otherwise. -/
def dictSet (d : List (String × PyVal)) (k : String) (v : PyVal) : List (String × PyVal) :=
  if (d.lookup k).isSome then
    d.map (fun p => if p.1 = k then (k, v) else p)
  else
    d ++ [(k, v)]

/-- Python `value * s` for a float `s`: a float result for numbers, an
uncaught `TypeError` (`none`) for a string. -/
def pyMulFloat : PyVal → Rat → Option PyVal
  | .int n, s => some (.float ((n : Rat) * s))
  | .float q, s => some (.float (q * s))
  | .str _, _ => none

/-- Python `value + o` for a float `o`. -/
def pyAddFloat : PyVal → Rat → Option PyVal
  | .int n, o => some (.float ((n : Rat) + o))
  | .float q, o => some (.float (q + o))
  | .str _, _ => none

/-- Python `value - o` for a float `o`. -/
def pySubFloat : PyVal → Rat → Option PyVal
  | .int n, o => some (.float ((n : Rat) - o))
  | .float q, o => some (.float (q - o))
  | .str _, _ => none

/-- Python `value / s` for a float `s` (`ZeroDivisionError` as `none`). -/
def pyDivFloat : PyVal → Rat → Option PyVal
  | .int n, s => if s = 0 then none else some (.float ((n : Rat) / s))
  | .float q, s => if s = 0 then none else some (.float (q / s))
  | .str _, _ => none

/-- The scaling step of `_read_register_group`: multiply by `scale_factor`
and then add `offset`, each only when configured. -/
def apply_scale (value : PyVal) (scale_factor offset : Option Rat) : Option PyVal :=
  match (match scale_factor with
         | some s => pyMulFloat value s
         | none => some value) with
  | none => none
  | some v1 =>
    match offset with
    | some o => pyAddFloat v1 o
    | none => some v1

/-- The per-register loop of `_read_register_group`: slice the response at
the register's offset, decode (the call site omits `byte_order`, so the
default `big` is used), scale, record the result and store into
`self._last_values`.  Returns the results (`none` when a conversion raised,
in which case the cache keeps the updates made before the failure), the
updated cache, and — as verification bookkeeping — the names stored so far. -/
def read_group_loop (response : List Nat) (start_address : Int) :
    List RegisterConfig → List (String × PyVal) → List (String × PyVal) → List String →
    Option (List (String × PyVal)) × List (String × PyVal) × List String
  | [], results, lastValues, touched => (some results, lastValues, touched)
  | reg :: rest, results, lastValues, touched =>
    match get_register_count reg.type reg.length with
    | none => (none, lastValues, touched)
    | some reg_count =>
      let offset := reg.address - start_address
      let raw := (response.drop offset.toNat).take reg_count
      match registers_to_value raw reg.type reg.length default_byte_order with
      | none => (none, lastValues, touched)
      | some decoded =>
        match apply_scale decoded reg.scale_factor reg.offset with
        | none => (none, lastValues, touched)
        | some value =>
          read_group_loop response start_address rest
            (results ++ [(reg.name, value)])
            (dictSet lastValues reg.name value)
            (touched ++ [reg.name])

/-- `ModbusController._read_register_group` on a transport response: an
empty group returns `{}`; otherwise the word count of the last register is
computed (a `DataConversionError` can escape here), the function code of the
first register must be 3 or 4 (`ReadError` otherwise), and then every
register of the group is decoded from its slice of the response. -/
def read_register_group (response : List Nat) (group : List RegisterConfig)
    (lastValues : List (String × PyVal)) :
    Option (List (String × PyVal)) × List (String × PyVal) × List String :=
  match group with
  | [] => (some [], lastValues, [])
  | first :: _ =>
    let last := group.getLastD first
    match get_register_count last.type last.length with
    | none => (none, lastValues, [])
    | some _ =>
      if first.function_code = 3 ∨ first.function_code = 4 then
        read_group_loop response first.address group [] lastValues []
      else (none, lastValues, [])

/-- Python `old_value != new_value` where `old_value` may be `None`. -/
def pyNe (old : Option PyVal) (nv : PyVal) : Bool :=
  match old with
  | none => true
  | some o => !(pyEq o nv)

/-- The change-detection step of `_monitoring_loop`: for each result of the
group read, compare against `self._last_values` *as it stands after the
group read* and collect a callback invocation `(name, old, new)` whenever
they differ. -/
def monitoring_callbacks (results : List (String × PyVal))
    (lastValues : List (String × PyVal)) : List (String × Option PyVal × PyVal) :=
  results.filterMap (fun nv =>
    let old := lastValues.lookup nv.1
    if pyNe old nv.2 then some (nv.1, old, nv.2) else none)

/-- One poll of a due group as executed by an iteration of
`_monitoring_loop`: read the group (which already updates the cache), then
run the change detection against the updated cache.  Returns the callback
invocations and the new cache. -/
def monitoring_cycle (response : List Nat) (group : List RegisterConfig)
    (lastValues : List (String × PyVal)) :
    Option (List (String × Option PyVal × PyVal) × List (String × PyVal)) :=
  match read_register_group response group lastValues with
  | (some results, lastValues', _) => some (monitoring_callbacks results lastValues', lastValues')
  | (none, _, _) => none

/-- `ModbusController._get_registers_by_name`: the first configured register
with the given name; `none` embeds the `ConfigurationError` raised for an
unknown name. -/
def get_registers_by_name (registers : List RegisterConfig) (name : String) :
    Option RegisterConfig :=
  registers.find? (fun reg => reg.name == name)

/-- The mutable engine state the embedded operations touch:
`self._last_values` and the connection flag. -/
structure EngineState where
  lastValues : List (String × PyVal)
  connected : Bool
  deriving DecidableEq

/-- The state right after `__init__`: empty cache, no connection. -/
def init_state : EngineState := ⟨[], false⟩

/-- A write issued to the transport collaborator. -/
inductive ModbusCall
  | writeSingle (address : Int) (value : Nat)
  | writeMultiple (address : Int) (values : List Nat)
  deriving DecidableEq

/-- Outcome of an embedded engine call. -/
inductive CallOutcome
  | ok
  | error (e : PyError)
  deriving DecidableEq

/-- Result of `write_register`: the outcome, the engine state after the
call, and the transport calls issued during the call. -/
structure WriteResult where
  outcome : CallOutcome
  state : EngineState
  calls : List ModbusCall
  deriving DecidableEq

/-- The encode-and-transmit tail of `write_register`: encode the scaled
value (the call site omits `byte_order`, so the default `big` is used),
reconnect if needed, issue a single-word or multi-word write, and on
success store the caller's unscaled value into the cache. -/
def write_register_io (reg : RegisterConfig) (transport_error : ModbusCall → Bool)
    (st : EngineState) (name : String) (value : PyVal) (write_value : PyVal) : WriteResult :=
  match value_to_registers write_value reg.type default_byte_order reg.length with
  | none => ⟨.error .dataConversionError, st, []⟩
  | some words =>
    let st1 : EngineState := { st with connected := true }
    let call :=
      match words with
      | [w] => ModbusCall.writeSingle reg.address w
      | _ => ModbusCall.writeMultiple reg.address words
    if transport_error call then ⟨.error .writeError, st1, [call]⟩
    else ⟨.ok, { st1 with lastValues := dictSet st1.lastValues name value }, [call]⟩

/-- `ModbusController.write_register`: look up the register
(`ConfigurationError` when absent), subtract `offset` when configured,
divide by `scale_factor` when configured — raising `WriteError` when the
scale factor is zero — then encode and transmit. -/
def write_register (registers : List RegisterConfig) (transport_error : ModbusCall → Bool)
    (st : EngineState) (name : String) (value : PyVal) : WriteResult :=
  match get_registers_by_name registers name with
  | none => ⟨.error .configurationError, st, []⟩
  | some reg =>
    match (match reg.offset with
           | some o => pySubFloat value o
           | none => some value) with
    | none => ⟨.error .typeError, st, []⟩
    | some wv1 =>
      match reg.scale_factor with
      | some s =>
        if s = 0 then ⟨.error .writeError, st, []⟩
        else
          match pyDivFloat wv1 s with
          | none => ⟨.error .typeError, st, []⟩
          | some wv2 => write_register_io reg transport_error st name value wv2
      | none => write_register_io reg transport_error st name value wv1

/-- `ModbusController.get_last_value`: `self._last_values.get(name)`. -/
def get_last_value (st : EngineState) (name : String) : Option PyVal :=
  st.lastValues.lookup name

/-- `get_last_value` as a state transformer: the method body only reads the
cache, so the state comes back unchanged. -/
def get_last_value_call (st : EngineState) (name : String) : Option PyVal × EngineState :=
  (st.lastValues.lookup name, st)

/-- The engine operations that can store into the `_last_values` cache. -/
inductive EngineEvent
  | groupRead (response : List Nat) (group : List RegisterConfig)
  | write (registers : List RegisterConfig) (transport_error : ModbusCall → Bool)
      (name : String) (value : PyVal)

/-- Run one event; returns the new state and the names that were the
subject of a successful read or write during the event — exactly the keys
at which the event stored into `_last_values`. -/
def apply_event (st : EngineState) : EngineEvent → EngineState × List String
  | .groupRead response group =>
    let r := read_register_group response group st.lastValues
    ({ st with lastValues := r.2.1 }, r.2.2)
  | .write registers transport_error name value =>
    let r := write_register registers transport_error st name value
    (r.state, match r.outcome with | .ok => [name] | .error _ => [])

/-- Run a list of events from a state, collecting every successfully
read/written name. -/
def run_events (st : EngineState) : List EngineEvent → EngineState × List String
  | [] => (st, [])
  | ev :: evs =>
    let r1 := apply_event st ev
    let r2 := run_events r1.1 evs
    (r2.1, r1.2 ++ r2.2)

end Modbus


namespace Modbus

/-! ## Concrete configurations used by the verification -/

/-- The value ranges the integer encoders accept
(`value_to_registers`, range checks of the four integer branches). -/
def int_type_range : DataType → Int → Prop
  | .uint16, v => 0 ≤ v ∧ v ≤ 0xFFFF
  | .int16, v => -32768 ≤ v ∧ v ≤ 32767
  | .uint32, v => 0 ≤ v ∧ v ≤ 0xFFFFFFFF
  | .int32, v => -2147483648 ≤ v ∧ v ≤ 2147483647
  | _, _ => False

/-- A register occupying one word. -/
def regA : RegisterConfig := ⟨"a", 100, .uint16, 3, none, none, .big, false, none, none⟩

/-- A register one word after `regA`. -/
def regB : RegisterConfig := ⟨"b", 101, .uint16, 3, none, none, .big, false, none, none⟩

/-- A two-word register right after `regB`. -/
def regC : RegisterConfig := ⟨"c", 102, .float32, 3, none, none, .big, false, none, none⟩

/-- A two-word register: a single register already wider than a
`max_registers_per_read` of 1. -/
def wideReg : RegisterConfig := ⟨"wide", 0, .float32, 3, none, none, .big, false, none, none⟩

/-- A polled register with no scaling, as in the monitoring scenario. -/
def tempReg : RegisterConfig := ⟨"temp", 0, .uint16, 3, some 1, none, .big, false, none, none⟩

/-- A 32-bit register explicitly configured with little word order. -/
def littleReg : RegisterConfig := ⟨"u32", 0, .uint32, 3, none, none, .little, false, none, none⟩

/-- The scaled register of the scaling round-trip scenario:
`scale_factor = 0.1`, `offset = 0`, one word. -/
def powerReg : RegisterConfig := ⟨"power", 0, .uint16, 3, none, none, .big, true, some (1 / 10), some 0⟩

/-- A register with a zero scale factor and an offset. -/
def limitReg : RegisterConfig := ⟨"limit", 0, .uint16, 3, none, none, .big, true, some 0, some 0⟩

/-- A register with a zero scale factor and no offset. -/
def zeroReg : RegisterConfig := ⟨"zero", 0, .uint16, 3, none, none, .big, true, some 0, none⟩

/-- The code points of the string `"TEST"`. -/
def testStr : List Nat := [84, 69, 83, 84]

/-- A valid configuration document. -/
def demoDoc : ConfigDoc :=
  ⟨⟨"tcp", some "192.168.1.100", none⟩,
   [⟨"a", 100, "uint16", 3, "big", none⟩, ⟨"s", 200, "string", 3, "big", some 4⟩]⟩

/-- A short engine history: one successful group read of `tempReg` and one
successful write to it. -/
def demoEvents : List EngineEvent :=
  [.groupRead [5] [tempReg], .write [tempReg] (fun _ => false) "temp" (.int 1)]

end Modbus

namespace Modbus

/-! ## Supporting lemmas -/

/-- Reflexivity of Python `==` on controller values. -/
lemma pyEq_refl (v : PyVal) : pyEq v v = true := by
  cases v <;> simp [pyEq]

/-- `wc` agrees with `get_register_count` wherever the latter succeeds. -/
lemma wc_eq_of_count {r : RegisterConfig} {n : Nat}
    (h : get_register_count r.type r.length = some n) : wc r = n := by
  simp [wc, h]

/-- The span of a reversed running group is the span of the group. -/
lemma groupSpan_reverse (l : List RegisterConfig) : groupSpan l.reverse = spanRev l := by
  cases l with
  | nil => rfl
  | cons h t =>
    simp only [groupSpan, spanRev, List.head?_reverse, List.getLast?_reverse,
      List.getLastD_eq_getLast?]
    cases hl : (h :: t).getLast? with
    | none => simp at hl
    | some x => simp [List.head?]

/-- Unfolding `List.lookup` at a matching head. -/
lemma lookup_cons_eq (k a : String) (b : PyVal) (tl : List (String × PyVal)) (h : k = a) :
    List.lookup k ((a, b) :: tl) = some b := by
  subst h; simp [List.lookup]

/-- Unfolding `List.lookup` at a non-matching head. -/
lemma lookup_cons_ne (k a : String) (b : PyVal) (tl : List (String × PyVal)) (h : ¬ k = a) :
    List.lookup k ((a, b) :: tl) = List.lookup k tl := by
  have hb : (k == a) = false := by simp [h]
  simp [List.lookup, hb]

/-- Looking up the stored key after a replacing map finds the new value. -/
lemma lookup_map_set (d : List (String × PyVal)) (k : String) (v : PyVal)
    (h : (d.lookup k).isSome) :
    (d.map (fun p => if p.1 = k then (k, v) else p)).lookup k = some v := by
  induction d with
  | nil => simp [List.lookup] at h
  | cons p tl ih =>
    obtain ⟨a, b⟩ := p
    simp only [List.map_cons]
    by_cases hk : a = k
    · rw [if_pos hk]
      exact lookup_cons_eq k k v _ rfl
    · rw [if_neg hk]
      have hk' : ¬ k = a := fun he => hk he.symm
      rw [lookup_cons_ne k a b tl hk'] at h
      rw [lookup_cons_ne k a b _ hk']
      exact ih h

/-- A key absent from the front list is looked up in the back list. -/
lemma lookup_append_of_none (d l2 : List (String × PyVal)) (k : String)
    (h : d.lookup k = none) : (d ++ l2).lookup k = l2.lookup k := by
  induction d with
  | nil => rfl
  | cons p tl ih =>
    obtain ⟨a, b⟩ := p
    by_cases hk : k = a
    · rw [lookup_cons_eq k a b tl hk] at h
      exact absurd h (by simp)
    · rw [lookup_cons_ne k a b tl hk] at h
      rw [List.cons_append, lookup_cons_ne k a b _ hk]
      exact ih h

/-- `d[k] = v` makes `k` look up to `v`. -/
lemma lookup_dictSet_self (d : List (String × PyVal)) (k : String) (v : PyVal) :
    (dictSet d k v).lookup k = some v := by
  unfold dictSet
  split
  · exact lookup_map_set d k v (by assumption)
  · rename_i h
    rw [lookup_append_of_none d _ k (Option.not_isSome_iff_eq_none.1 h)]
    exact lookup_cons_eq k k v [] rfl

/-- The replacing map does not change the lookup of any other key. -/
lemma lookup_map_set_ne (d : List (String × PyVal)) (k k' : String) (v : PyVal)
    (h : k' ≠ k) :
    (d.map (fun p => if p.1 = k then (k, v) else p)).lookup k' = d.lookup k' := by
  induction d with
  | nil => rfl
  | cons p tl ih =>
    obtain ⟨a, b⟩ := p
    simp only [List.map_cons]
    by_cases hk : a = k
    · rw [if_pos hk, lookup_cons_ne k' k v _ h,
        lookup_cons_ne k' a b tl (fun he => h (he.trans hk))]
      exact ih
    · rw [if_neg hk]
      by_cases hk2 : k' = a
      · rw [lookup_cons_eq k' a b _ hk2, lookup_cons_eq k' a b tl hk2]
      · rw [lookup_cons_ne k' a b _ hk2, lookup_cons_ne k' a b tl hk2]
        exact ih

/-- Appending a new binding does not change the lookup of any other key. -/
lemma lookup_append_ne (d : List (String × PyVal)) (k k' : String) (v : PyVal)
    (h : k' ≠ k) : ((d ++ [(k, v)]).lookup k') = d.lookup k' := by
  induction d with
  | nil =>
    rw [List.nil_append, lookup_cons_ne k' k v [] h]
  | cons p tl ih =>
    obtain ⟨a, b⟩ := p
    by_cases hk2 : k' = a
    · rw [List.cons_append, lookup_cons_eq k' a b _ hk2, lookup_cons_eq k' a b tl hk2]
    · rw [List.cons_append, lookup_cons_ne k' a b _ hk2, lookup_cons_ne k' a b tl hk2]
      exact ih

/-- `d[k] = v` does not change the lookup of any other key. -/
lemma lookup_dictSet_ne (d : List (String × PyVal)) (k k' : String) (v : PyVal)
    (h : k' ≠ k) : (dictSet d k v).lookup k' = d.lookup k' := by
  unfold dictSet
  split
  · exact lookup_map_set_ne d k k' v h
  · exact lookup_append_ne d k k' v h

/-- The read loop leaves the cache unchanged at every key that is not the
name of a processed register. -/
lemma read_group_loop_lookup_not_mem (response : List Nat) (start : Int) :
    ∀ (regs : List RegisterConfig) (results : List (String × PyVal))
      (lv : List (String × PyVal)) (touched : List String) (k : String),
      (∀ reg ∈ regs, reg.name ≠ k) →
      ((read_group_loop response start regs results lv touched).2.1).lookup k = lv.lookup k := by
  intro regs
  induction regs with
  | nil => intro results lv touched k h; rfl
  | cons reg rest ih =>
    intro results lv touched k h
    simp only [read_group_loop]
    split
    · rfl
    · split
      · rfl
      · split
        · rfl
        · rw [ih _ _ _ k (fun r hr => h r (List.mem_cons_of_mem _ hr))]
          exact lookup_dictSet_ne _ _ _ _ (fun he => h reg (List.mem_cons_self _ _) he.symm)

/-- Every entry of the read loop's result list (beyond the accumulator) is
present in the final cache with exactly its result value, provided the
processed registers have pairwise distinct names. -/
lemma read_group_loop_result_lookup (response : List Nat) (start : Int) :
    ∀ (regs : List RegisterConfig) (results : List (String × PyVal))
      (lv : List (String × PyVal)) (touched : List String)
      (res lv' : List (String × PyVal)) (t' : List String),
      read_group_loop response start regs results lv touched = (some res, lv', t') →
      (regs.map (fun r => r.name)).Nodup →
      ∀ nv ∈ res, nv ∈ results ∨ lv'.lookup nv.1 = some nv.2 := by
  intro regs
  induction regs with
  | nil =>
    intro results lv touched res lv' t' h hnodup nv hnv
    simp only [read_group_loop, Prod.mk.injEq, Option.some.injEq] at h
    left
    exact h.1 ▸ hnv
  | cons reg rest ih =>
    intro results lv touched res lv' t' h hnodup nv hnv
    simp only [read_group_loop] at h
    split at h
    · simp at h
    · split at h
      · simp at h
      · split at h
        · simp at h
        · rename_i value hs
          simp only [List.map_cons, List.nodup_cons] at hnodup
          rcases ih _ _ _ _ _ _ h hnodup.2 nv hnv with hmem | hl
          · rcases List.mem_append.1 hmem with hmem2 | hmem2
            · exact Or.inl hmem2
            · right
              simp only [List.mem_singleton] at hmem2
              subst hmem2
              have hlv : lv' = (read_group_loop response start rest
                  (results ++ [(reg.name, value)]) (dictSet lv reg.name value)
                  (touched ++ [reg.name])).2.1 := by rw [h]
              rw [hlv, read_group_loop_lookup_not_mem response start rest _ _ _ _
                    (fun r hr he => hnodup.1 (List.mem_map.2 ⟨r, hr, he⟩))]
              exact lookup_dictSet_self lv reg.name value
          · exact Or.inr hl

/-! ## C2 — monitoring change detection -/

/-- C2: in the absent → 10 → 10 → 12 polling scenario the observer callback
is never invoked: `_read_register_group` stores each freshly decoded value
into `self._last_values` before `_monitoring_loop` compares the result
against that same cache, so the old and new values always coincide and the
callback list of every cycle is empty — not the two invocations the claim
requires. -/
theorem monitoring_change_callbacks_never_fire :
    monitoring_cycle [10] [tempReg] [] = some ([], [("temp", .int 10)]) ∧
    monitoring_cycle [10] [tempReg] [("temp", .int 10)] = some ([], [("temp", .int 10)]) ∧
    monitoring_cycle [12] [tempReg] [("temp", .int 10)] = some ([], [("temp", .int 12)]) := by
  exact ⟨rfl, rfl, rfl⟩

/-- The change detection of `_monitoring_loop` can never report a change for
a group of distinctly named registers: the comparison runs against the cache
already updated by the group read. -/
theorem monitoring_callbacks_always_empty (response : List Nat)
    (group : List RegisterConfig) (lv : List (String × PyVal))
    (cbs : List (String × Option PyVal × PyVal)) (lv' : List (String × PyVal))
    (hnodup : (group.map (fun r => r.name)).Nodup)
    (h : monitoring_cycle response group lv = some (cbs, lv')) :
    cbs = [] := by
  have key : ∀ nv ∈ cbs, False := by
    intro nv hnv
    unfold monitoring_cycle at h
    rcases hg : read_register_group response group lv with ⟨o, lv2, t2⟩
    rw [hg] at h
    cases o with
    | none => simp at h
    | some results =>
      simp only [Option.some.injEq, Prod.mk.injEq] at h
      obtain ⟨hcbs, hlv⟩ := h
      have hres : ∀ p ∈ results, lv2.lookup p.1 = some p.2 := by
        intro p hp
        simp only [read_register_group] at hg
        split at hg
        · simp only [Prod.mk.injEq, Option.some.injEq] at hg
          rw [← hg.1] at hp
          simp at hp
        · rename_i first tail
          split at hg
          · simp at hg
          · split at hg
            · rcases read_group_loop_result_lookup response first.address (first :: tail) [] lv []
                  results lv2 t2 hg hnodup p hp with hmem | hl
              · simp at hmem
              · exact hl
            · simp at hg
      rw [← hcbs] at hnv
      unfold monitoring_callbacks at hnv
      rcases List.mem_filterMap.1 hnv with ⟨p, hp, hfp⟩
      rw [hres p hp] at hfp
      simp only [pyNe, pyEq_refl, Bool.not_true, Bool.false_eq_true, if_false] at hfp
      exact Option.noConfusion hfp
  cases cbs with
  | nil => rfl
  | cons c cs => exact absurd (key c (List.mem_cons_self _ _)) (fun hf => hf)

/-! ## C8 — scaling round-trip -/

/-- C8: the scaling round-trip scenario fails on the write side.  Writing
`22.5` to the one-word register with `scale_factor = 0.1`, `offset = 0`
computes the raw value `225.0` as a Python float, and the `uint16` branch of
`value_to_registers` rejects any non-`int`, so `write_register` raises
`DataConversionError` before any transport call and leaves the state
unchanged.  The read side works as claimed: a response word `225` decodes
and scales to exactly `22.5`. -/
theorem scaled_write_dataconversion_bug :
    write_register [powerReg] (fun _ => false) init_state "power" (.float (45 / 2))
      = ⟨.error .dataConversionError, init_state, []⟩ ∧
    read_register_group [225] [powerReg] []
      = (some [("power", .float (45 / 2))], [("power", .float (45 / 2))], ["power"]) := by
  constructor
  · norm_num [write_register, get_registers_by_name, List.find?, powerReg, pySubFloat,
      pyDivFloat, write_register_io, value_to_registers, init_state]
  · norm_num [read_register_group, read_group_loop, registers_to_value, convert_from_registers,
      registers_to_uint16, apply_scale, pyMulFloat, pyAddFloat, dictSet, get_register_count,
      powerReg, default_byte_order, init_state]

end Modbus


namespace Modbus

/-! ## C3 — the engine ignores the configured byte order -/

/-- C3: the controller's group-read decode and write encode always use word
order `big`, whatever the register's `byte_order` field says: the controller
calls `registers_to_value` / `value_to_registers` without the `byte_order`
argument, so the default `big` applies (first two conjuncts, for every
register including little-endian ones).  Concretely, the engine decodes the
words `[1, 2]` for a `uint32` register configured `little` as `65538`
(high word first), not as the little-endian value `131073`. -/
theorem engine_uses_big_word_order :
    (∀ (reg : RegisterConfig) (raw : List Nat),
        registers_to_value raw reg.type reg.length default_byte_order
          = convert_from_registers raw reg.type .big) ∧
    (∀ (reg : RegisterConfig) (v : PyVal),
        value_to_registers v reg.type default_byte_order reg.length
          = value_to_registers v reg.type .big reg.length) ∧
    littleReg.byte_order = .little ∧
    read_group_loop [1, 2] 0 [littleReg] [] [] []
        = (some [("u32", .int 65538)], [("u32", .int 65538)], ["u32"]) ∧
    convert_from_registers [1, 2] littleReg.type .little = some (.int 131073) := by
  exact ⟨fun reg raw => rfl, fun reg v => rfl, rfl, by decide, by decide⟩

/-! ## C5 — two's-complement sign boundary -/

/-- C5: encoding `-1` as `int16` yields the word `0xFFFF` and decoding
`0xFFFF` as `int16` yields `-1`; encoding `-1` as `int32` yields the words
of the 32-bit pattern `0xFFFFFFFF` under either word order, and decoding
that pattern as `int32` yields `-1` (the encoders add `0x10000` /
`0x100000000` to negative values, the decoders subtract them again above
the sign boundary). -/
theorem sign_boundary_int16_int32 :
    value_to_registers (.int (-1)) .int16 .big none = some [0xFFFF] ∧
    convert_from_registers [0xFFFF] .int16 .big = some (.int (-1)) ∧
    value_to_registers (.int (-1)) .int32 .big none = some [0xFFFF, 0xFFFF] ∧
    value_to_registers (.int (-1)) .int32 .little none = some [0xFFFF, 0xFFFF] ∧
    convert_from_registers [0xFFFF, 0xFFFF] .int32 .big = some (.int (-1)) ∧
    convert_from_registers [0xFFFF, 0xFFFF] .int32 .little = some (.int (-1)) := by
  refine ⟨by decide, by decide, by decide, by decide, by decide, by decide⟩

/-! ## C6 — string conversion -/

/-- Word count produced by the byte-packing loop. -/
lemma packPairs_length : ∀ bytes : List Nat, (packPairs bytes).length = (bytes.length + 1) / 2
  | [] => rfl
  | [b0] => by simp [packPairs]
  | b0 :: b1 :: rest => by
    simp only [packPairs, List.length_cons, packPairs_length rest]
    omega

/-- C6: encoding any string with a declared `length` produces exactly
`length` words (the byte string is padded with spaces or truncated to
`2 * length` bytes and packed two bytes per word); and concretely, encoding
`"TEST"` with `length = 4` yields the four words
`[0x5445, 0x5354, 0x2020, 0x2020]`, whose decoding strips the trailing
space padding and returns exactly `"TEST"`. -/
theorem string_encode_roundtrip :
    (∀ (chars : List Nat) (l : Nat), (string_encode chars (some l)).length = l) ∧
    value_to_registers (.str testStr) .string .big (some 4)
        = some [0x5445, 0x5354, 0x2020, 0x2020] ∧
    convert_from_registers [0x5445, 0x5354, 0x2020, 0x2020] .string .big
        = some (.str testStr) := by
  refine ⟨?_, by decide, by decide⟩
  intro chars l
  simp only [string_encode]
  generalize (chars.filter fun b => decide (b < 128)) = bs
  set bs2 := if bs.length < l * 2 then bs ++ List.replicate (l * 2 - bs.length) 0x20
      else if l * 2 < bs.length then bs.take (l * 2) else bs with hbs2
  have hlen : bs2.length = l * 2 := by
    rw [hbs2]
    split
    · simp only [List.length_append, List.length_replicate]
      omega
    · split
      · simp only [List.length_take]
        omega
      · omega
  rw [if_neg (by rw [hlen]; omega)]
  rw [packPairs_length bs2, hlen]
  omega

/-! ## C1 — grouping -/

/-- C1 counterexample: a single two-word (`float32`) register with
`max_registers_per_read = 1` is returned as a one-register group whose span
is 2, exceeding the limit — the claim's span bound fails as stated for
every positive `max_registers_per_read`. -/
theorem grouping_span_counterexample :
    group_consecutive_registers 1 [wideReg] = some [[wideReg]] ∧
    ¬ groupSpan [wideReg] ≤ (1 : Int) := by
  exact ⟨by decide, by decide⟩

end Modbus

namespace Modbus

/-- Invariant of the grouping loop: assuming the running (reversed) group is
nonempty, reverse-chained, within the span limit, the finished groups are
chained and within the limit, and every remaining register fits the limit on
its own, the loop's output flattens to exactly the input processed so far
and every output group is chained and within the limit. -/
lemma groupGo_spec (max_regs : Int) :
    ∀ (rest current : List RegisterConfig) (groups out : List (List RegisterConfig)),
      groupGo max_regs rest current groups = some out →
      current ≠ [] →
      List.Chain' (flip RegStep) current →
      spanRev current ≤ max_regs →
      (∀ g ∈ groups, List.Chain' RegStep g ∧ groupSpan g ≤ max_regs) →
      (∀ r ∈ rest, (wc r : Int) ≤ max_regs) →
      out.flatten = groups.flatten ++ current.reverse ++ rest ∧
      ∀ g ∈ out, List.Chain' RegStep g ∧ groupSpan g ≤ max_regs := by
  intro rest
  induction rest with
  | nil =>
    intro current groups out h hne hchain hspan hgroups hrest
    simp only [groupGo, Option.some.injEq] at h
    subst h
    constructor
    · simp
    · intro g hg
      rcases List.mem_append.1 hg with hg2 | hg2
      · exact hgroups g hg2
      · simp only [List.mem_singleton] at hg2
        subst hg2
        refine ⟨List.chain'_reverse.2 hchain, ?_⟩
        rw [groupSpan_reverse]
        exact hspan
  | cons reg rest ih =>
    intro current groups out h hne hchain hspan hgroups hrest
    cases current with
    | nil => exact absurd rfl hne
    | cons last_reg t =>
      simp only [groupGo] at h
      split at h
      · rename_i last_count reg_count hl hr
        split at h
        · rename_i hc
          have hstep : RegStep last_reg reg := by
            unfold RegStep
            rw [wc_eq_of_count hl]
            exact hc.1
          have hchain2 : List.Chain' (flip RegStep) (reg :: last_reg :: t) :=
            List.chain'_cons.2 ⟨hstep, hchain⟩
          have hspan2 : spanRev (reg :: last_reg :: t) ≤ max_regs := by
            simp only [spanRev]
            rw [wc_eq_of_count hr]
            have hgl : (reg :: last_reg :: t).getLast?.getD reg
                = ((last_reg :: t).getLastD last_reg) := by
              rw [List.getLastD_eq_getLast?, List.getLast?_cons_cons]
              cases hx : (last_reg :: t).getLast? with
              | none => simp at hx
              | some x => rfl
            rw [hgl]
            have := hc.2
            omega
          obtain ⟨hj, hprops⟩ := ih (reg :: last_reg :: t) groups out h (by simp)
            hchain2 hspan2 hgroups (fun r hrr => hrest r (List.mem_cons_of_mem _ hrr))
          refine ⟨?_, hprops⟩
          rw [hj]
          simp
        · rename_i hc
          have hspan1 : spanRev [reg] ≤ max_regs := by
            simp only [spanRev, List.getLast?_singleton, Option.getD_some]
            have := hrest reg (List.mem_cons_self _ _)
            omega
          have hgroups2 : ∀ g ∈ groups ++ [(last_reg :: t).reverse],
              List.Chain' RegStep g ∧ groupSpan g ≤ max_regs := by
            intro g hg
            rcases List.mem_append.1 hg with hg2 | hg2
            · exact hgroups g hg2
            · simp only [List.mem_singleton] at hg2
              subst hg2
              refine ⟨List.chain'_reverse.2 hchain, ?_⟩
              rw [groupSpan_reverse]
              exact hspan
          obtain ⟨hj, hprops⟩ := ih [reg] (groups ++ [(last_reg :: t).reverse]) out h
            (by simp) (List.chain'_singleton reg) hspan1 hgroups2
            (fun r hrr => hrest r (List.mem_cons_of_mem _ hrr))
          refine ⟨?_, hprops⟩
          rw [hj]
          simp
      · simp at h

end Modbus

namespace Modbus

/-- C1 (amended): for every finite register list, every positive
`max_registers_per_read`, and — as the counterexample forces — provided
every single register's word count already fits within
`max_registers_per_read`, the grouping operation returns groups that
flatten to a permutation of the input (each register exactly once), are
each internally strictly consecutive (each register starts where the
previous one ends), and each span at most `max_registers_per_read` words. -/
theorem grouping_partition_amended (max_regs : Int) (registers : List RegisterConfig)
    (groups : List (List RegisterConfig))
    (hpos : 0 < max_regs)
    (hmax : ∀ r ∈ registers, (wc r : Int) ≤ max_regs)
    (h : group_consecutive_registers max_regs registers = some groups) :
    groups.flatten.Perm registers ∧
    (∀ g ∈ groups, List.Chain' RegStep g) ∧
    (∀ g ∈ groups, groupSpan g ≤ max_regs) := by
  unfold group_consecutive_registers at h
  have hperm : (sortByAddress registers).Perm registers :=
    List.perm_insertionSort _ _
  cases hs : sortByAddress registers with
  | nil =>
    rw [hs] at h hperm
    simp only [Option.some.injEq] at h
    subst h
    have hreg : registers = [] := List.perm_nil.1 hperm.symm
    subst hreg
    exact ⟨by simp, by simp, by simp⟩
  | cons r0 rest =>
    rw [hs] at h hperm
    have hmem : ∀ r ∈ r0 :: rest, r ∈ registers := fun r hr => hperm.mem_iff.1 hr
    obtain ⟨hj, hprops⟩ := groupGo_spec max_regs rest [r0] [] groups h (by simp)
      (List.chain'_singleton r0)
      (by
        simp only [spanRev, List.getLast?_singleton, Option.getD_some]
        have := hmax r0 (hmem r0 (List.mem_cons_self _ _))
        omega)
      (by intro g hg; simp at hg)
      (fun r hr => hmax r (hmem r (List.mem_cons_of_mem _ hr)))
    refine ⟨?_, fun g hg => (hprops g hg).1, fun g hg => (hprops g hg).2⟩
    rw [hj]
    simpa using hperm

/-- Witness: the spec's own example — registers at 100 (one word),
101 (one word) and 102 (two words) with the limit 125 form the single
group spanning `[100, 104)`. -/
theorem grouping_partition_amended_witness :
    ([[regA, regB, regC]] : List (List RegisterConfig)).flatten.Perm [regA, regB, regC] ∧
    (∀ g ∈ ([[regA, regB, regC]] : List (List RegisterConfig)), List.Chain' RegStep g) ∧
    (∀ g ∈ ([[regA, regB, regC]] : List (List RegisterConfig)), groupSpan g ≤ (125 : Int)) :=
  grouping_partition_amended 125 [regA, regB, regC] [[regA, regB, regC]]
    (by norm_num) (by decide) (by decide)

end Modbus

namespace Modbus

/-- Recombining the two 16-bit halves produced by the 32-bit encoders. -/
lemma word_recombine (x : Nat) (hx : x < 2 ^ 32) :
    (((x >>> 16) &&& 0xFFFF) <<< 16) ||| (x &&& 0xFFFF) = x := by
  have h1 : (0xFFFF : Nat) = 2 ^ 16 - 1 := by norm_num
  rw [h1, Nat.and_pow_two_sub_one_eq_mod, Nat.and_pow_two_sub_one_eq_mod,
    Nat.shiftRight_eq_div_pow, Nat.shiftLeft_eq, Nat.mul_comm]
  rw [← Nat.mul_add_lt_is_or (Nat.mod_lt _ (by norm_num)) _]
  omega

/-- C4: for each integer type and each word order, decoding the words
produced by encoding any in-range value returns exactly that value. -/
theorem integer_roundtrip (t : DataType) (bo : ByteOrder) (v : Int)
    (h : int_type_range t v) :
    (value_to_registers (.int v) t bo none).bind
        (fun ws => convert_from_registers ws t bo) = some (.int v) := by
  cases t with
  | uint16 =>
    simp only [int_type_range] at h
    have henc : value_to_registers (.int v) .uint16 bo none = some [v.toNat] := by
      simp only [value_to_registers]
      rw [if_neg (by omega)]
    rw [henc]
    show convert_from_registers [v.toNat] .uint16 bo = some (.int v)
    simp only [convert_from_registers, registers_to_uint16, Option.map_some']
    simp only [Option.some.injEq, PyVal.int.injEq]
    omega
  | int16 =>
    simp only [int_type_range] at h
    have henc : value_to_registers (.int v) .int16 bo none
        = some [(if v < 0 then v + 0x10000 else v).toNat] := by
      simp only [value_to_registers]
      rw [if_neg (by omega)]
    rw [henc]
    show convert_from_registers [(if v < 0 then v + 0x10000 else v).toNat] .int16 bo
        = some (.int v)
    simp only [convert_from_registers, registers_to_int16, Option.map_some']
    simp only [Option.some.injEq, PyVal.int.injEq]
    split_ifs <;> omega
  | uint32 =>
    simp only [int_type_range] at h
    have hx : v.toNat < 2 ^ 32 := by omega
    cases bo with
    | big =>
      have henc : value_to_registers (.int v) .uint32 .big none
          = some [(v.toNat >>> 16) &&& 0xFFFF, v.toNat &&& 0xFFFF] := by
        simp only [value_to_registers]
        rw [if_neg (by omega)]
      rw [henc]
      show convert_from_registers [(v.toNat >>> 16) &&& 0xFFFF, v.toNat &&& 0xFFFF]
          .uint32 .big = some (.int v)
      simp only [convert_from_registers, registers_to_uint32, Option.map_some']
      rw [word_recombine v.toNat hx]
      simp only [Option.some.injEq, PyVal.int.injEq]
      omega
    | little =>
      have henc : value_to_registers (.int v) .uint32 .little none
          = some [v.toNat &&& 0xFFFF, (v.toNat >>> 16) &&& 0xFFFF] := by
        simp only [value_to_registers]
        rw [if_neg (by omega)]
      rw [henc]
      show convert_from_registers [v.toNat &&& 0xFFFF, (v.toNat >>> 16) &&& 0xFFFF]
          .uint32 .little = some (.int v)
      simp only [convert_from_registers, registers_to_uint32, Option.map_some']
      rw [word_recombine v.toNat hx]
      simp only [Option.some.injEq, PyVal.int.injEq]
      omega
  | int32 =>
    simp only [int_type_range] at h
    have hw : (if v < 0 then v + 0x100000000 else v).toNat < 2 ^ 32 := by
      split <;> omega
    cases bo with
    | big =>
      have henc : value_to_registers (.int v) .int32 .big none
          = some [((if v < 0 then v + 0x100000000 else v).toNat >>> 16) &&& 0xFFFF,
                  (if v < 0 then v + 0x100000000 else v).toNat &&& 0xFFFF] := by
        simp only [value_to_registers]
        rw [if_neg (by omega)]
      rw [henc]
      show convert_from_registers
          [((if v < 0 then v + 0x100000000 else v).toNat >>> 16) &&& 0xFFFF,
           (if v < 0 then v + 0x100000000 else v).toNat &&& 0xFFFF] .int32 .big
          = some (.int v)
      simp only [convert_from_registers, registers_to_int32, registers_to_uint32,
        Option.map_some']
      rw [word_recombine _ hw]
      simp only [Option.some.injEq, PyVal.int.injEq]
      split_ifs <;> omega
    | little =>
      have henc : value_to_registers (.int v) .int32 .little none
          = some [(if v < 0 then v + 0x100000000 else v).toNat &&& 0xFFFF,
                  ((if v < 0 then v + 0x100000000 else v).toNat >>> 16) &&& 0xFFFF] := by
        simp only [value_to_registers]
        rw [if_neg (by omega)]
      rw [henc]
      show convert_from_registers
          [(if v < 0 then v + 0x100000000 else v).toNat &&& 0xFFFF,
           ((if v < 0 then v + 0x100000000 else v).toNat >>> 16) &&& 0xFFFF] .int32 .little
          = some (.int v)
      simp only [convert_from_registers, registers_to_int32, registers_to_uint32,
        Option.map_some']
      rw [word_recombine _ hw]
      simp only [Option.some.injEq, PyVal.int.injEq]
      split_ifs <;> omega
  | float32 => exact absurd h (by simp [int_type_range])
  | string => exact absurd h (by simp [int_type_range])

/-- Witness: the round-trip at `int16`, word order `big`, value `-5`. -/
theorem integer_roundtrip_witness :
    int_type_range .int16 (-5) ∧
    (value_to_registers (.int (-5)) .int16 .big none).bind
        (fun ws => convert_from_registers ws .int16 .big) = some (.int (-5)) :=
  ⟨by norm_num [int_type_range],
   integer_roundtrip .int16 .big (-5) (by norm_num [int_type_range])⟩

end Modbus

namespace Modbus

/-! ## C9 — configuration validation -/

/-- `dedup` preserves the length exactly on duplicate-free lists. -/
lemma dedup_length_iff (l : List String) : (l.dedup.length = l.length) ↔ l.Nodup := by
  constructor
  · intro h
    have he := (l.dedup_sublist).eq_of_length h
    rw [← he]
    exact l.nodup_dedup
  · intro h
    rw [h.dedup]

/-- C9: parsing a (well-typed) configuration document succeeds exactly when
none of the claim's conditions is violated: the connection type is known,
`tcp` has a (non-empty) host, `rtu` has a (non-empty) serial port name,
every register type, function code and byte order is in its accepted set,
every string register carries a (non-zero) length, and register names are
pairwise distinct.  Following the source's truthiness checks, "without a
host/length" includes the empty string and the zero length. -/
theorem load_from_dict_ok_iff (d : ConfigDoc) :
    (load_from_dict d).isOk = true ↔
      ((d.connection.type = "tcp" ∨ d.connection.type = "rtu") ∧
       (d.connection.type = "tcp" → truthyStr d.connection.host = true) ∧
       (d.connection.type = "rtu" → truthyStr d.connection.port_name = true) ∧
       (∀ r ∈ d.registers, r.type ∈ valid_types) ∧
       (∀ r ∈ d.registers, r.function_code ∈ valid_codes) ∧
       (∀ r ∈ d.registers, r.byte_order = "big" ∨ r.byte_order = "little") ∧
       (∀ r ∈ d.registers, r.type = "string" → truthyInt r.length = true) ∧
       (d.registers.map (fun r => r.name)).Nodup) := by
  have hiff : (load_from_dict d).isOk = true ↔
      (validate_connection d.connection && d.registers.all validate_register
        && unique_names d.registers) = true := by
    unfold load_from_dict
    split
    · rename_i hcond
      simp [Except.isOk, Except.toBool, hcond]
    · rename_i hcond
      simp only [Except.isOk, Except.toBool]
      constructor
      · intro hfalse; exact absurd hfalse (by simp)
      · intro htrue; exact absurd htrue hcond
  rw [hiff]
  unfold validate_connection validate_register unique_names
  simp only [Bool.and_eq_true, List.all_eq_true, decide_eq_true_eq, beq_iff_eq,
    Bool.or_eq_true, dedup_length_iff]
  constructor
  · intro hv
    obtain ⟨⟨⟨⟨hty, hhost⟩, hport⟩, hregs⟩, hnames⟩ := hv
    refine ⟨hty, hhost, hport, ?_, ?_, ?_, ?_, hnames⟩ <;>
      intro r hr <;> have := hregs r hr <;> tauto
  · intro hv
    obtain ⟨hty, hhost, hport, h1, h2, h3, h4, hnames⟩ := hv
    refine ⟨⟨⟨⟨hty, hhost⟩, hport⟩, ?_⟩, hnames⟩
    intro r hr
    exact ⟨⟨⟨h1 r hr, h2 r hr⟩, h3 r hr⟩, h4 r hr⟩

/-- Witness: a valid two-register `tcp` document is accepted. -/
theorem load_from_dict_ok_iff_witness : (load_from_dict demoDoc).isOk = true :=
  (load_from_dict_ok_iff demoDoc).mpr (by decide)

/-! ## C7 — zero scale factor guard on write -/

/-- C7 counterexample: for a register with `scale_factor = 0` *and* a
configured `offset`, writing a non-numeric (string) value raises an
uncaught `TypeError` at the offset subtraction, before the zero-scale
check, so the call does not raise `WriteError` — though still with no
transport call and no state change. -/
theorem zero_scale_counterexample :
    (write_register [limitReg] (fun _ => false) init_state "limit" (.str [97])).outcome
        = .error .typeError ∧
    (write_register [limitReg] (fun _ => false) init_state "limit" (.str [97])).outcome
        ≠ .error .writeError ∧
    (write_register [limitReg] (fun _ => false) init_state "limit" (.str [97])).state
        = init_state ∧
    (write_register [limitReg] (fun _ => false) init_state "limit" (.str [97])).calls
        = [] := by
  refine ⟨by decide, by decide, by decide, by decide⟩

/-- C7 (amended): for every register configured with `scale_factor = 0`,
and every value on which the preceding offset step is defined (any value
when no offset is configured, numeric values otherwise), `write_register`
returns `WriteError` with no transport call issued and the engine state —
connection flag and value cache — unchanged. -/
theorem zero_scale_write_error (registers : List RegisterConfig)
    (transport_error : ModbusCall → Bool) (st : EngineState) (name : String)
    (value : PyVal) (reg : RegisterConfig)
    (hfind : get_registers_by_name registers name = some reg)
    (hscale : reg.scale_factor = some 0)
    (hval : reg.offset = none ∨ ∀ chars, value ≠ .str chars) :
    write_register registers transport_error st name value
      = ⟨.error .writeError, st, []⟩ := by
  obtain ⟨w, hw⟩ : ∃ w, (match reg.offset with
      | some o => pySubFloat value o
      | none => some value) = some w := by
    cases ho : reg.offset with
    | none => exact ⟨value, rfl⟩
    | some o =>
      rcases hval with hnone | hnum
      · rw [ho] at hnone
        exact Option.noConfusion hnone
      · cases value with
        | int n => exact ⟨_, rfl⟩
        | float q => exact ⟨_, rfl⟩
        | str s => exact absurd rfl (hnum s)
  simp only [write_register, hfind, hw, hscale]
  rw [if_pos trivial]

/-- Witness: writing `7` to a register with `scale_factor = 0` and no
offset raises `WriteError` and leaves everything untouched. -/
theorem zero_scale_write_error_witness :
    write_register [zeroReg] (fun _ => false) init_state "zero" (.int 7)
      = ⟨.error .writeError, init_state, []⟩ :=
  zero_scale_write_error [zeroReg] (fun _ => false) init_state "zero" (.int 7) zeroReg
    rfl rfl (Or.inl rfl)

end Modbus

namespace Modbus

/-! ## C10 — `get_last_value` on never-accessed names -/

/-- The loop only adds names to its bookkeeping list. -/
lemma read_group_loop_touched_mono (response : List Nat) (start : Int) :
    ∀ (regs : List RegisterConfig) (results : List (String × PyVal))
      (lv : List (String × PyVal)) (touched : List String),
      touched ⊆ (read_group_loop response start regs results lv touched).2.2 := by
  intro regs
  induction regs with
  | nil => intro results lv touched a ha; exact ha
  | cons reg rest ih =>
    intro results lv touched
    simp only [read_group_loop]
    cases hcnt : get_register_count reg.type reg.length with
    | none => exact fun a ha => ha
    | some reg_count =>
      cases hd : registers_to_value ((response.drop (reg.address - start).toNat).take reg_count)
          reg.type reg.length default_byte_order with
      | none => simp only [hd]; exact fun a ha => ha
      | some decoded =>
        simp only [hd]
        cases hs : apply_scale decoded reg.scale_factor reg.offset with
        | none => simp only [hs]; exact fun a ha => ha
        | some value =>
          simp only [hs]
          exact fun a ha => ih _ _ _ (List.mem_append.2 (Or.inl ha))

/-- The loop leaves the cache unchanged at every key it did not store. -/
lemma read_group_loop_lookup_not_touched (response : List Nat) (start : Int) :
    ∀ (regs : List RegisterConfig) (results : List (String × PyVal))
      (lv : List (String × PyVal)) (touched : List String) (k : String),
      k ∉ (read_group_loop response start regs results lv touched).2.2 →
      ((read_group_loop response start regs results lv touched).2.1).lookup k
        = lv.lookup k := by
  intro regs
  induction regs with
  | nil => intro results lv touched k h; rfl
  | cons reg rest ih =>
    intro results lv touched k h
    simp only [read_group_loop] at h ⊢
    cases hcnt : get_register_count reg.type reg.length with
    | none => simp only [hcnt] at h ⊢; try rfl
    | some reg_count =>
      simp only [hcnt] at h ⊢
      cases hd : registers_to_value ((response.drop (reg.address - start).toNat).take reg_count)
          reg.type reg.length default_byte_order with
      | none => simp only [hd] at h ⊢; try rfl
      | some decoded =>
        simp only [hd] at h ⊢
        cases hs : apply_scale decoded reg.scale_factor reg.offset with
        | none => simp only [hs] at h ⊢; try rfl
        | some value =>
          simp only [hs] at h ⊢
          have hk : k ≠ reg.name := by
            intro he
            exact h (read_group_loop_touched_mono response start rest _ _ _
              (List.mem_append.2 (Or.inr (by simp [he]))))
          rw [ih _ _ _ k h]
          exact lookup_dictSet_ne _ _ _ _ hk

/-- `_read_register_group` leaves the cache unchanged at every name it did
not successfully store. -/
lemma read_register_group_lookup_not_touched (response : List Nat)
    (group : List RegisterConfig) (lv : List (String × PyVal)) (k : String)
    (h : k ∉ (read_register_group response group lv).2.2) :
    ((read_register_group response group lv).2.1).lookup k = lv.lookup k := by
  cases group with
  | nil => rfl
  | cons first t =>
    simp only [read_register_group] at h ⊢
    cases hcnt : get_register_count ((first :: t).getLastD first).type
        ((first :: t).getLastD first).length with
    | none => simp only [hcnt] at h ⊢; try rfl
    | some cnt =>
      simp only [hcnt] at h ⊢
      by_cases hfc : first.function_code = 3 ∨ first.function_code = 4
      · rw [if_pos hfc] at h ⊢
        exact read_group_loop_lookup_not_touched response first.address (first :: t) [] lv [] k h
      · rw [if_neg hfc] at h ⊢
        try rfl

/-- `write_register` either leaves the cache alone, or succeeded and
stored exactly at the written name. -/
lemma write_register_state (registers : List RegisterConfig)
    (transport_error : ModbusCall → Bool) (st : EngineState) (name : String)
    (value : PyVal) :
    (write_register registers transport_error st name value).state.lastValues
      = st.lastValues ∨
    ((write_register registers transport_error st name value).outcome = .ok ∧
     (write_register registers transport_error st name value).state.lastValues
       = dictSet st.lastValues name value) := by
  unfold write_register
  simp only [write_register_io]
  repeat' split
  all_goals first
    | (left; rfl)
    | (right; exact ⟨rfl, rfl⟩)

/-- One event leaves the cache unchanged at every name it did not
successfully read or write. -/
lemma apply_event_lookup (st : EngineState) (ev : EngineEvent) (k : String)
    (h : k ∉ (apply_event st ev).2) :
    ((apply_event st ev).1.lastValues).lookup k = st.lastValues.lookup k := by
  cases ev with
  | groupRead response group =>
    simp only [apply_event] at h ⊢
    exact read_register_group_lookup_not_touched response group st.lastValues k h
  | write registers transport_error name value =>
    simp only [apply_event] at h ⊢
    cases ho : (write_register registers transport_error st name value).outcome with
    | ok =>
      simp only [ho] at h
      have hk : k ≠ name := by simpa using h
      rcases write_register_state registers transport_error st name value with hst | ⟨ho2, hst⟩
      · rw [hst]
      · rw [hst]
        exact lookup_dictSet_ne _ _ _ _ hk
    | error e =>
      rcases write_register_state registers transport_error st name value with hst | ⟨ho2, hst⟩
      · rw [hst]
      · rw [ho] at ho2
        exact CallOutcome.noConfusion ho2

/-- A run of events leaves the cache unchanged at every name never
successfully read or written during the run. -/
lemma run_events_lookup (k : String) :
    ∀ (events : List EngineEvent) (st : EngineState),
      k ∉ (run_events st events).2 →
      ((run_events st events).1.lastValues).lookup k = st.lastValues.lookup k := by
  intro events
  induction events with
  | nil => intro st h; rfl
  | cons ev evs ih =>
    intro st h
    simp only [run_events] at h ⊢
    rw [List.mem_append] at h
    push_neg at h
    rw [ih _ h.2, apply_event_lookup _ _ _ h.1]

/-- C10: for every engine history (starting from construction, where the
cache is empty) and every name that was never the subject of a successful
read or write in that history — in particular any name absent from the
register catalogue, which `get_last_value` never consults —
`get_last_value` returns `None` without raising, and the call leaves the
engine state (including the cache) unchanged. -/
theorem get_last_value_unread_none (events : List EngineEvent) (name : String)
    (h : name ∉ (run_events init_state events).2) :
    (get_last_value_call (run_events init_state events).1 name).1 = none ∧
    (get_last_value_call (run_events init_state events).1 name).2
      = (run_events init_state events).1 := by
  refine ⟨?_, rfl⟩
  show ((run_events init_state events).1.lastValues).lookup name = none
  rw [run_events_lookup name events init_state h]
  rfl

/-- Witness: after a successful read of `temp` and a successful write to
`temp`, the never-accessed name `other` yields `None` with the state
untouched. -/
theorem get_last_value_unread_none_witness :
    (get_last_value_call (run_events init_state demoEvents).1 "other").1 = none ∧
    (get_last_value_call (run_events init_state demoEvents).1 "other").2
      = (run_events init_state demoEvents).1 :=
  get_last_value_unread_none demoEvents "other" (by decide)

end Modbus
